import Mathlib

/-!
Shallow embedding of the oruba-coin-worker volume/alert workers.

The definitions follow the JavaScript source: `src/src/index.js` (the
volume worker: rolling windows, cooldown-gated dispatch, symbol
reconciliation, reconnect backoff, settings refresh) and the alerts
worker (threshold/crossing evaluation via `shouldTriggerAlert`).
Timestamps are epoch milliseconds and USD values are modelled as
integers; prices are modelled as rationals.
-/

namespace Oruba

/-- One `{ ts, value }` element of the `entries` array kept by
`createRollingWindow` (src/src/index.js, lines 282-304). -/
structure Entry where
  ts : Int
  value : Int
deriving Repr, DecidableEq

/-- The closure state of `createRollingWindow(windowMs)`: the `entries`
array together with the running `sum`. -/
structure RollingWindow where
  windowMs : Int
  entries : List Entry
  sum : Int
deriving Repr, DecidableEq

/-- `createRollingWindow(windowMs)`: a fresh window with no entries and
sum `0`. -/
def createRollingWindow (windowMs : Int) : RollingWindow :=
  { windowMs := windowMs, entries := [], sum := 0 }

/-- `add(ts, value)`: push the entry onto the array and add its value to
the running sum. -/
def RollingWindow.add (w : RollingWindow) (ts value : Int) : RollingWindow :=
  { w with entries := w.entries ++ [{ ts := ts, value := value }]
         , sum := w.sum + value }

/-- The `while` loop of `prune(now)`: shift entries with
`ts < cutoff` off the front of the array; returns the remaining entries
together with the total value shifted off (which the loop subtracts from
the running sum one entry at a time). -/
def pruneLoop (cutoff : Int) : List Entry → List Entry × Int
  | [] => ([], 0)
  | e :: rest =>
    if e.ts < cutoff then
      let r := pruneLoop cutoff rest
      (r.1, e.value + r.2)
    else (e :: rest, 0)

/-- `prune(now)`: evict all front entries with `ts < now - windowMs`,
subtracting each evicted value from the sum. -/
def RollingWindow.prune (w : RollingWindow) (now : Int) : RollingWindow :=
  let r := pruneLoop (now - w.windowMs) w.entries
  { w with entries := r.1, sum := w.sum - r.2 }

/-- `getSum()`. -/
def RollingWindow.getSum (w : RollingWindow) : Int := w.sum

/-- Sum of the `value` fields of a list of entries. -/
def entrySum (l : List Entry) : Int := (l.map Entry.value).sum

/-- One public call on a rolling window, in the order the caller chooses:
`add(ts, value)` or `prune(now)`. -/
inductive WinOp where
  | add (ts value : Int)
  | prune (now : Int)
deriving Repr, DecidableEq

/-- Apply one `WinOp` to a window. -/
def applyWinOp (w : RollingWindow) : WinOp → RollingWindow
  | .add ts v => w.add ts v
  | .prune now => w.prune now

/-- The window update performed by `handleTrade` (src/src/index.js, lines
443-445) viewed with the update's own timestamp as "now": append the
entry, then evict front entries with `ts < now - windowMs`. -/
def RollingWindow.update (w : RollingWindow) (ts value : Int) : RollingWindow :=
  (w.add ts value).prune ts

/-- Fold a sequence of `update` calls over a fresh window. -/
def runUpdates (windowMs : Int) (us : List (Int × Int)) : RollingWindow :=
  us.foldl (fun w u => w.update u.1 u.2) (createRollingWindow windowMs)

@[simp] lemma entrySum_nil : entrySum [] = 0 := rfl

@[simp] lemma entrySum_cons (e : Entry) (l : List Entry) :
    entrySum (e :: l) = e.value + entrySum l := by
  simp [entrySum]

@[simp] lemma entrySum_append (l₁ l₂ : List Entry) :
    entrySum (l₁ ++ l₂) = entrySum l₁ + entrySum l₂ := by
  simp [entrySum]

/-- Eviction subtracts exactly the evicted entries: the value shifted off
by the prune loop plus the value still held equals the value held before. -/
lemma pruneLoop_snd (c : Int) (l : List Entry) :
    entrySum (pruneLoop c l).1 + (pruneLoop c l).2 = entrySum l := by
  induction l with
  | nil => simp [pruneLoop]
  | cons e rest ih =>
    by_cases h : e.ts < c
    · simp only [pruneLoop, if_pos h, entrySum_cons]
      omega
    · simp [pruneLoop, if_neg h]

/-- The running-sum bookkeeping invariant is preserved by every
`add`/`prune` call. -/
lemma applyWinOp_sum_inv (w : RollingWindow) (op : WinOp)
    (h : w.sum = entrySum w.entries) :
    (applyWinOp w op).sum = entrySum (applyWinOp w op).entries := by
  cases op with
  | add ts v => simp [applyWinOp, RollingWindow.add, h]
  | prune now =>
    have hp := pruneLoop_snd (now - w.windowMs) w.entries
    simp only [applyWinOp, RollingWindow.prune]
    omega

/-- The running-sum bookkeeping invariant is preserved by any sequence of
calls. -/
lemma foldl_winOp_sum_inv (ops : List WinOp) :
    ∀ w : RollingWindow, w.sum = entrySum w.entries →
      (ops.foldl applyWinOp w).sum = entrySum (ops.foldl applyWinOp w).entries := by
  induction ops with
  | nil => intro w h; exact h
  | cons op rest ih =>
    intro w h
    exact ih _ (applyWinOp_sum_inv w op h)

/-- Claim C9: for every sequence of `add(ts, value)` and `prune(now)`
calls on a rolling window, in any order and with arbitrary (including
out-of-order) timestamps, `getSum()` equals the exact sum of the `value`
fields of the entries currently held: eviction subtracts exactly the
evicted entries and append adds exactly the appended one, so the running
sum never desynchronizes from the stored entries. -/
theorem C9_rolling_sum_matches_entries (windowMs : Int) (ops : List WinOp) :
    (ops.foldl applyWinOp (createRollingWindow windowMs)).getSum
      = entrySum (ops.foldl applyWinOp (createRollingWindow windowMs)).entries :=
  foldl_winOp_sum_inv ops (createRollingWindow windowMs) (by simp [createRollingWindow])

/-- On a timestamp-sorted entry list, the front-eviction loop removes
exactly the entries older than the cutoff. -/
lemma pruneLoop_fst_of_sorted (c : Int) (l : List Entry)
    (h : l.Pairwise (fun a b => a.ts ≤ b.ts)) :
    (pruneLoop c l).1 = l.filter (fun e => decide (c ≤ e.ts)) := by
  induction l with
  | nil => rfl
  | cons e rest ih =>
    rcases List.pairwise_cons.1 h with ⟨hall, htail⟩
    by_cases hc : e.ts < c
    · have : ¬ (c ≤ e.ts) := by omega
      simp only [pruneLoop, if_pos hc, List.filter_cons, decide_eq_true_eq]
      simp [this, ih htail]
    · have hce : c ≤ e.ts := by omega
      simp only [pruneLoop, if_neg hc, List.filter_cons, decide_eq_true_eq]
      rw [if_pos hce]
      have : rest.filter (fun e => decide (c ≤ e.ts)) = rest := by
        refine List.filter_eq_self.2 ?_
        intro a ha
        exact decide_eq_true (by have := hall a ha; omega)
      rw [this]

/-- Map a raw `(timestamp, value)` update onto an `Entry`. -/
def toEntry (p : Int × Int) : Entry := { ts := p.1, value := p.2 }

/-- Updates never change the window duration. -/
lemma foldl_update_windowMs (vs : List (Int × Int)) :
    ∀ w : RollingWindow,
      (vs.foldl (fun w u => w.update u.1 u.2) w).windowMs = w.windowMs := by
  induction vs with
  | nil => intro w; rfl
  | cons v rest ih =>
    intro w
    rw [List.foldl_cons, ih]
    rfl

/-- After a non-decreasing sequence of `update` calls ending at timestamp
`u.1`, the window holds exactly the input entries with
`u.1 - windowMs ≤ ts`. -/
lemma runUpdates_entries (windowMs : Int) (hW : 0 ≤ windowMs)
    (us : List (Int × Int)) :
    ∀ u : Int × Int, (us ++ [u]).Pairwise (fun a b => a.1 ≤ b.1) →
      (runUpdates windowMs (us ++ [u])).entries
        = ((us ++ [u]).map toEntry).filter
            (fun e => decide (u.1 - windowMs ≤ e.ts)) := by
  induction us using List.reverseRecOn with
  | nil =>
    intro u _
    have h1 : ¬ (u.1 < u.1 - windowMs) := by omega
    have h2 : u.1 - windowMs ≤ u.1 := by omega
    simp only [runUpdates, List.nil_append, List.foldl_cons, List.foldl_nil,
      RollingWindow.update, RollingWindow.add, RollingWindow.prune,
      createRollingWindow, pruneLoop, if_neg h1, List.map_cons, List.map_nil,
      toEntry]
    rw [eq_comm]
    refine List.filter_eq_self.2 ?_
    intro a ha
    simp only [List.mem_singleton] at ha
    subst ha
    exact decide_eq_true h2
  | append_singleton vs v ih =>
    intro u hmono
    have hsub : (vs ++ [v]).Sublist ((vs ++ [v]) ++ [u]) :=
      List.sublist_append_left _ _
    have hmono' : (vs ++ [v]).Pairwise (fun a b => a.1 ≤ b.1) :=
      hmono.sublist hsub
    have hbound : ∀ a ∈ vs ++ [v], a.1 ≤ u.1 := by
      rcases List.pairwise_append.1 hmono with ⟨_, _, h⟩
      intro a ha
      exact h a ha u (by simp)
    have hvu : v.1 ≤ u.1 := hbound v (by simp)
    have hE := ih v hmono'
    have hfold : runUpdates windowMs ((vs ++ [v]) ++ [u])
        = (runUpdates windowMs (vs ++ [v])).update u.1 u.2 := by
      simp [runUpdates, List.foldl_append]
    set w := runUpdates windowMs (vs ++ [v]) with hw
    have hwm : w.windowMs = windowMs := by
      rw [hw]
      exact foldl_update_windowMs (vs ++ [v]) (createRollingWindow windowMs)
    -- the pre-prune entry list is timestamp-sorted
    have hsortM : ((vs ++ [v]).map toEntry).Pairwise (fun a b => a.ts ≤ b.ts) := by
      exact List.pairwise_map.2 (by exact hmono'.imp (fun h => h))
    have hsortE : w.entries.Pairwise (fun a b => a.ts ≤ b.ts) := by
      rw [hE]; exact hsortM.filter _
    have hsorted : (w.entries ++ [toEntry u]).Pairwise (fun a b => a.ts ≤ b.ts) := by
      refine List.pairwise_append.2 ⟨hsortE, by simp, ?_⟩
      intro a ha b hb
      have hb' : b = toEntry u := by simpa using hb
      have haM : a ∈ (vs ++ [v]).map toEntry := by
        rw [hE] at ha
        exact List.mem_of_mem_filter ha
      rcases List.mem_map.1 haM with ⟨p, hp, rfl⟩
      have := hbound p hp
      simpa [toEntry, hb'] using this
    have hwin : ((w.add u.1 u.2).prune u.1).entries
        = (w.entries ++ [toEntry u]).filter
            (fun e => decide (u.1 - windowMs ≤ e.ts)) := by
      simp only [RollingWindow.prune, RollingWindow.add, hwm]
      exact pruneLoop_fst_of_sorted _ _ hsorted
    rw [hfold, RollingWindow.update, hwin, List.filter_append, hE,
      List.filter_filter]
    have hkeep : [toEntry u].filter (fun e => decide (u.1 - windowMs ≤ e.ts))
        = [toEntry u] := by
      have h2 : decide (u.1 - windowMs ≤ (toEntry u).ts) = true :=
        decide_eq_true (show u.1 - windowMs ≤ u.1 by omega)
      rw [List.filter_cons, if_pos h2, List.filter_nil]
    have hmerge : ((vs ++ [v]).map toEntry).filter
          (fun a => decide (u.1 - windowMs ≤ a.ts) && decide (v.1 - windowMs ≤ a.ts))
        = ((vs ++ [v]).map toEntry).filter
            (fun a => decide (u.1 - windowMs ≤ a.ts)) := by
      refine List.filter_congr ?_
      intro e _
      by_cases h : u.1 - windowMs ≤ e.ts
      · have : v.1 - windowMs ≤ e.ts := by omega
        simp [h, this]
      · simp [h]
    have hR : ((vs ++ [v] ++ [u]).map toEntry).filter
          (fun e => decide (u.1 - windowMs ≤ e.ts))
        = ((vs ++ [v]).map toEntry).filter
            (fun e => decide (u.1 - windowMs ≤ e.ts)) ++ [toEntry u] := by
      rw [List.map_append, List.filter_append,
        show List.map toEntry [u] = [toEntry u] from rfl, hkeep]
    rw [hkeep, hmerge, hR]

/-- Claim C2: for every sequence of `update(symbol, timestamp, value)`
calls with non-decreasing timestamps, each update (append the entry and
add its value to the running sum, then evict front entries with
`timestamp < now - windowDuration`, subtracting each) returns a sum equal
to the sum of exactly the values whose timestamp lies within the trailing
window `[now - windowDuration, now]` of the latest timestamp `now`. -/
theorem C2_rolling_window_sum (windowMs : Int) (hW : 0 ≤ windowMs)
    (us : List (Int × Int)) (u : Int × Int)
    (hmono : (us ++ [u]).Pairwise (fun a b => a.1 ≤ b.1)) :
    (runUpdates windowMs (us ++ [u])).getSum
      = (((us ++ [u]).filter
          (fun p => decide (u.1 - windowMs ≤ p.1) && decide (p.1 ≤ u.1))).map
            Prod.snd).sum := by
  have hops : ∀ vs : List (Int × Int),
      runUpdates windowMs vs
        = ((vs.map fun p => [WinOp.add p.1 p.2, WinOp.prune p.1]).flatten).foldl
            applyWinOp (createRollingWindow windowMs) := by
    intro vs
    induction vs using List.reverseRecOn with
    | nil => rfl
    | append_singleton xs x ih =>
      simp [runUpdates, List.foldl_append] at *
      rw [ih]
      rfl
  have hsum : (runUpdates windowMs (us ++ [u])).getSum
      = entrySum (runUpdates windowMs (us ++ [u])).entries := by
    rw [hops]
    exact foldl_winOp_sum_inv _ _ (by simp [createRollingWindow])
  rw [hsum, runUpdates_entries windowMs hW us u hmono]
  have hbound : ∀ a ∈ us ++ [u], a.1 ≤ u.1 := by
    intro a ha
    rcases List.mem_append.1 ha with h | h
    · rcases List.pairwise_append.1 hmono with ⟨_, _, hr⟩
      exact hr a h u (by simp)
    · simp only [List.mem_singleton] at h
      subst h
      exact le_refl _
  have hfe : (us ++ [u]).filter
        (fun p => decide (u.1 - windowMs ≤ p.1) && decide (p.1 ≤ u.1))
      = (us ++ [u]).filter (fun p => decide (u.1 - windowMs ≤ p.1)) := by
    refine List.filter_congr ?_
    intro p hp
    have := hbound p hp
    by_cases h : u.1 - windowMs ≤ p.1 <;> simp [h, this]
  rw [hfe]
  have hcomm : ((us ++ [u]).map toEntry).filter
        (fun e => decide (u.1 - windowMs ≤ e.ts))
      = ((us ++ [u]).filter (fun p => decide (u.1 - windowMs ≤ p.1))).map toEntry := by
    rw [List.filter_map]
    rfl
  rw [hcomm]
  have hfun : Entry.value ∘ toEntry = (Prod.snd : Int × Int → Int) := rfl
  simp only [entrySum, List.map_map, hfun]

/-- Witness for C2 at a concrete monotone trade sequence. -/
theorem C2_rolling_window_sum_witness :
    (runUpdates 10 ([((1 : Int), (5 : Int)), (8, 3)] ++ [(12, 4)])).getSum
      = ((([((1 : Int), (5 : Int)), (8, 3)] ++ [(12, 4)]).filter
          (fun p : Int × Int =>
            decide ((12 : Int) - 10 ≤ p.1) && decide (p.1 ≤ 12))).map
            Prod.snd).sum :=
  C2_rolling_window_sum 10 (by decide) [(1, 5), (8, 3)] (12, 4) (by decide)

/-! JS `Map` objects keyed by symbol strings, modelled as association
lists with first-occurrence lookup. -/

/-- `Map.get(k)`. -/
def mapGet {α : Type} (k : String) : List (String × α) → Option α
  | [] => none
  | (k', v) :: rest => if k' = k then some v else mapGet k rest

/-- `Map.set(k, v)`: overwrite the existing entry or append a new one. -/
def mapSet {α : Type} (m : List (String × α)) (k : String) (v : α) :
    List (String × α) :=
  match m with
  | [] => [(k, v)]
  | (k', v') :: rest => if k' = k then (k, v) :: rest else (k', v') :: mapSet rest k v

@[simp] lemma mapGet_set_self {α : Type} (m : List (String × α)) (k : String) (v : α) :
    mapGet k (mapSet m k v) = some v := by
  induction m with
  | nil => simp [mapGet, mapSet]
  | cons p rest ih =>
    obtain ⟨pk, pv⟩ := p
    by_cases h : pk = k
    · simp [mapSet, mapGet, h]
    · simp [mapSet, mapGet, h, ih]

lemma mapGet_set_other {α : Type} (m : List (String × α)) (k k' : String) (v : α)
    (h : k' ≠ k) : mapGet k' (mapSet m k v) = mapGet k' m := by
  have h' : ¬ (k = k') := fun e => h (Eq.symm e)
  induction m with
  | nil => simp [mapGet, mapSet, h']
  | cons p rest ih =>
    obtain ⟨pk, pv⟩ := p
    by_cases hp : pk = k
    · subst hp
      simp [mapSet, mapGet, h']
    · by_cases hp' : pk = k'
      · simp [mapSet, mapGet, hp, hp', h]
      · simp [mapSet, mapGet, hp, hp', ih]

/-- The per-symbol trade-handling state of one `startWorker` instance:
the `windows` map (symbol → rolling window) and the `lastBroadcastAt`
cooldown map (symbol → timestamp), src/src/index.js lines 330-331. -/
structure VolumeState where
  windows : List (String × RollingWindow)
  lastBroadcastAt : List (String × Int)
deriving Repr, DecidableEq

/-- `getWindow(symbol)` (lines 333-338): return the symbol's window,
creating and inserting a fresh one when absent. -/
def getWindow (st : VolumeState) (symbol : String) (volumeWindowMs : Int) :
    VolumeState × RollingWindow :=
  match mapGet symbol st.windows with
  | some w => (st, w)
  | none =>
    let w := createRollingWindow volumeWindowMs
    ({ st with windows := mapSet st.windows symbol w }, w)

/-- The cooldown check-and-set inlined in `handleTrade` (lines 453-465),
the spec's `tryAcquire(key, now, cooldownDuration)`: suppress (`false`,
map unchanged) when a prior record exists that is truthy (`if (last)`,
so a recorded `0` counts as absent) with `now - last < cooldownDuration`;
otherwise record `lastFiredAt = now` and fire (`true`). -/
def tryAcquire (m : List (String × Int)) (key : String) (now cd : Int) :
    Bool × List (String × Int) :=
  let cooldownActive :=
    match mapGet key m with
    | some last => last ≠ 0 && decide (now - last < cd)
    | none => false
  if cooldownActive then (false, m) else (true, mapSet m key now)

/-- Lines 442-447 of `handleTrade`: fetch the symbol's window, `add` the
trade (`tradeTime || now` — a falsy trade time falls back to `now`),
`prune` at `now`; returns the updated state and `getSum()`. -/
def handleTradeWindow (st : VolumeState) (volumeWindowMs : Int) (symbol : String)
    (tradeTime quoteUsd now : Int) : VolumeState × Int :=
  let g := getWindow st symbol volumeWindowMs
  let window := (g.2.add (if tradeTime ≠ 0 then tradeTime else now) quoteUsd).prune now
  ({ g.1 with windows := mapSet g.1.windows symbol window }, window.getSum)

/-- `handleTrade(symbol, tradeTime, quoteUsd)` (lines 441-478). The
`dispatchOk` argument stands for whether the awaited broadcast call
succeeds; the `catch` block only logs, so the returned state does not
depend on it — the cooldown record is committed before the dispatch call
and survives a failure. Returns the new state and whether a dispatch was
attempted. -/
def handleTrade (st : VolumeState)
    (volumeWindowMs volumeThresholdUsd notificationCooldownMs : Int)
    (symbol : String) (tradeTime quoteUsd now : Int) (dispatchOk : Bool) :
    VolumeState × Bool :=
  let r := handleTradeWindow st volumeWindowMs symbol tradeTime quoteUsd now
  if r.2 < volumeThresholdUsd then (r.1, false)
  else
    let a := tryAcquire r.1.lastBroadcastAt symbol now notificationCooldownMs
    ({ r.1 with lastBroadcastAt := a.2 }, a.1)

/-- Counterexample to claim C3 as stated: at `t1 = 0` (an allowed time,
`t2 - t1 = 0 < cd = 1`) the recorded `lastFiredAt = 0` is falsy for the
`if (last)` check, so the second acquisition returns `true` where the
claim requires `false`. -/
theorem C3_counterexample_zero_t1 :
    (tryAcquire [] "x" 0 1).1 = true ∧
      (tryAcquire (tryAcquire [] "x" 0 1).2 "x" 0 1).1 = true := by
  decide

/-- Claim C3 (amended): for every key with no prior record, cooldown
`cd > 0`, and times `t2 ≥ t1` with `t1 ≠ 0`, two consecutive acquisitions
yield: the first returns `true` and records `lastFiredAt = t1`; the
second returns `false` when `t2 - t1 < cd`, and returns `true` recording
`lastFiredAt = t2` when `t2 - t1 ≥ cd`. The `t1 ≠ 0` proviso is forced by
the JavaScript truthiness of `if (last)`: a recorded timestamp `0` is
treated as no prior acquisition. -/
theorem C3_cooldown_two_acquisitions (m : List (String × Int)) (key : String)
    (t1 t2 cd : Int) (hcd : 0 < cd) (h12 : t1 ≤ t2) (ht1 : t1 ≠ 0)
    (hnone : mapGet key m = none) :
    (tryAcquire m key t1 cd).1 = true ∧
    mapGet key (tryAcquire m key t1 cd).2 = some t1 ∧
    (t2 - t1 < cd → (tryAcquire (tryAcquire m key t1 cd).2 key t2 cd).1 = false) ∧
    (cd ≤ t2 - t1 →
      (tryAcquire (tryAcquire m key t1 cd).2 key t2 cd).1 = true ∧
      mapGet key (tryAcquire (tryAcquire m key t1 cd).2 key t2 cd).2 = some t2) := by
  have hfirst : tryAcquire m key t1 cd = (true, mapSet m key t1) := by
    simp [tryAcquire, hnone]
  rw [hfirst]
  refine ⟨rfl, by simp, ?_, ?_⟩
  · intro hlt
    have : ¬ (cd ≤ t2 - t1) := by omega
    simp [tryAcquire, mapGet_set_self, ht1, hlt]
  · intro hge
    have hnotlt : ¬ (t2 - t1 < cd) := by omega
    simp [tryAcquire, mapGet_set_self, ht1, hnotlt]

/-- Witness for the amended C3 at a concrete pair of acquisitions inside
the cooldown window. -/
theorem C3_cooldown_two_acquisitions_witness :
    (tryAcquire [] "x" 5 15).1 = true ∧
    mapGet "x" (tryAcquire [] "x" 5 15).2 = some 5 ∧
    ((7 : Int) - 5 < 15 → (tryAcquire (tryAcquire [] "x" 5 15).2 "x" 7 15).1 = false) ∧
    ((15 : Int) ≤ 7 - 5 →
      (tryAcquire (tryAcquire [] "x" 5 15).2 "x" 7 15).1 = true ∧
      mapGet "x" (tryAcquire (tryAcquire [] "x" 5 15).2 "x" 7 15).2 = some 7) :=
  C3_cooldown_two_acquisitions [] "x" 5 7 15 (by decide) (by decide) (by decide) rfl

/-- The window-update phase never touches the cooldown map. -/
lemma handleTradeWindow_lastBroadcastAt (st : VolumeState) (W : Int)
    (symbol : String) (tt q now : Int) :
    (handleTradeWindow st W symbol tt q now).1.lastBroadcastAt
      = st.lastBroadcastAt := by
  unfold handleTradeWindow getWindow
  cases mapGet symbol st.windows <;> rfl

/-- Claim C1: for every trade event whose window sum meets the threshold
and whose cooldown has elapsed (i.e. `handleTrade` attempts a dispatch),
the cooldown record `lastFiredAt = now` is committed independently of the
dispatch outcome — the state after a failed dispatch equals the state
after a successful one, and holds `lastBroadcastAt(symbol) = now` — and
any subsequent event for the same symbol within the cooldown window after
the failed dispatch attempts no new dispatch. (`0 < now` reflects that
`now` is `Date.now()`, which is always positive.) -/
theorem C1_cooldown_survives_failed_dispatch (st : VolumeState)
    (W th cd : Int) (symbol : String) (tt q now tt' q' now' : Int) (d' : Bool)
    (hnow : 0 < now) (hle : now ≤ now') (hwin : now' - now < cd)
    (hfire : (handleTrade st W th cd symbol tt q now false).2 = true) :
    (handleTrade st W th cd symbol tt q now false).1
        = (handleTrade st W th cd symbol tt q now true).1 ∧
    mapGet symbol
        (handleTrade st W th cd symbol tt q now false).1.lastBroadcastAt
      = some now ∧
    (handleTrade (handleTrade st W th cd symbol tt q now false).1
        W th cd symbol tt' q' now' d').2 = false := by
  refine ⟨rfl, ?_⟩
  unfold handleTrade at hfire ⊢
  set r := handleTradeWindow st W symbol tt q now with hr
  by_cases hth : r.2 < th
  · simp [hth] at hfire
  · simp only [if_neg hth] at hfire ⊢
    set a := tryAcquire r.1.lastBroadcastAt symbol now cd with ha
    have hfired : a.1 = true := hfire
    have hset : a.2 = mapSet r.1.lastBroadcastAt symbol now := by
      rw [ha]
      unfold tryAcquire
      by_cases hact : (match mapGet symbol r.1.lastBroadcastAt with
        | some last => last ≠ 0 && decide (now - last < cd)
        | none => false) = true
      · rw [ha] at hfired
        unfold tryAcquire at hfired
        rw [if_pos hact] at hfired
        exact absurd hfired (by simp)
      · rw [if_neg hact]
    have hlook : mapGet symbol (mapSet r.1.lastBroadcastAt symbol now) = some now :=
      mapGet_set_self _ _ _
    refine ⟨by rw [hset] at *; exact hlook, ?_⟩
    set st1 : VolumeState := { r.1 with lastBroadcastAt := a.2 } with hst1
    set r' := handleTradeWindow st1 W symbol tt' q' now' with hr'
    by_cases hth' : r'.2 < th
    · simp [hth']
    · simp only [if_neg hth']
      have hlb : r'.1.lastBroadcastAt = mapSet r.1.lastBroadcastAt symbol now := by
        rw [hr', handleTradeWindow_lastBroadcastAt, hst1, hset]
      show (tryAcquire r'.1.lastBroadcastAt symbol now' cd).1 = false
      rw [hlb]
      unfold tryAcquire
      have hget : mapGet symbol (mapSet r.1.lastBroadcastAt symbol now) = some now :=
        mapGet_set_self _ _ _
      rw [hget]
      have hnz : now ≠ 0 := by omega
      have hlt : now' - now < cd := hwin
      simp [hnz, hlt]

/-- Witness for C1: a single 150-USD trade against a 100-USD threshold
fires, the dispatch fails, and a second qualifying trade 10 ms later is
suppressed. -/
theorem C1_cooldown_survives_failed_dispatch_witness :
    (handleTrade ⟨[], []⟩ 1000000 100 1000 "abcusdt" 50 150 50 false).1
        = (handleTrade ⟨[], []⟩ 1000000 100 1000 "abcusdt" 50 150 50 true).1 ∧
    mapGet "abcusdt"
        (handleTrade ⟨[], []⟩ 1000000 100 1000 "abcusdt" 50 150 50 false).1.lastBroadcastAt
      = some 50 ∧
    (handleTrade (handleTrade ⟨[], []⟩ 1000000 100 1000 "abcusdt" 50 150 50 false).1
        1000000 100 1000 "abcusdt" 60 150 60 false).2 = false :=
  C1_cooldown_survives_failed_dispatch ⟨[], []⟩ 1000000 100 1000 "abcusdt"
    50 150 50 60 150 60 false (by decide) (by decide) (by decide) (by decide)

/-- The operator dispatch of `shouldTriggerAlert(alert, currentPrice,
previousPrice)` from the alerts worker. The rule's resolved threshold
arrives as `none` when `resolveAlertThreshold` found no finite numeric
candidate (the rule is skipped with a warning); `previousPrice` is `none`
when no prior price was observed for the symbol, and
`Number.isFinite(undefined)` is `false`. Prices are modelled as
rationals. An unknown operator falls back to the `above` comparison. -/
def shouldTriggerAlert (threshold : Option ℚ) (operator : String)
    (currentPrice : ℚ) (previousPrice : Option ℚ) : Bool :=
  match threshold with
  | none => false
  | some th =>
    match operator with
    | "above" | "greater_than" | "gt" | "gte" | "greater_or_equal" | ">" | ">=" =>
        decide (th ≤ currentPrice)
    | "below" | "less_than" | "lt" | "lte" | "less_or_equal" | "<" | "<=" =>
        decide (currentPrice ≤ th)
    | "equal" | "equals" | "eq" | "=" | "==" =>
        decide (|currentPrice - th| ≤ 1 / 100000000)
    | "crosses_above" | "cross_above" =>
        match previousPrice with
        | some prev => decide (prev < th) && decide (th ≤ currentPrice)
        | none => false
    | "crosses_below" | "cross_below" =>
        match previousPrice with
        | some prev => decide (th < prev) && decide (currentPrice ≤ th)
        | none => false
    | _ => decide (th ≤ currentPrice)

/-- Claim C4: for a rule with operator `crosses_above` and a finite
threshold, `shouldTriggerAlert` returns `true` iff the previous price is
a defined (finite) number with `previousPrice < threshold ≤ currentPrice`;
in particular it is `false` for every current price when the previous
price is undefined. -/
theorem C4_crosses_above_iff (th currentPrice : ℚ) (previousPrice : Option ℚ) :
    (shouldTriggerAlert (some th) "crosses_above" currentPrice previousPrice = true
      ↔ ∃ prev, previousPrice = some prev ∧ prev < th ∧ th ≤ currentPrice) ∧
    shouldTriggerAlert (some th) "crosses_above" currentPrice none = false := by
  refine ⟨?_, rfl⟩
  cases previousPrice with
  | none =>
    simp only [shouldTriggerAlert]
    simp
  | some p =>
    simp only [shouldTriggerAlert]
    simp

/-- Lexicographic comparison of strings by code units, the default
comparator of JavaScript's `Array.prototype.sort`. -/
def lexLe : List Char → List Char → Bool
  | [], _ => true
  | _ :: _, [] => false
  | a :: as, b :: bs =>
    if a.toNat < b.toNat then true
    else if b.toNat < a.toNat then false
    else lexLe as bs

/-- String comparison used by `.sort()`. -/
def strLe (a b : String) : Bool := lexLe a.data b.data

/-- Insert into a sorted list (used to model `.sort()`). -/
def insertSorted (x : String) : List String → List String
  | [] => [x]
  | y :: rest => if strLe x y then x :: y :: rest else y :: insertSorted x rest

/-- `Array.prototype.sort()` with the default string comparator, modelled
as insertion sort (the properties used below depend only on membership). -/
def sortStrings : List String → List String
  | [] => []
  | x :: rest => insertSorted x (sortStrings rest)

lemma mem_insertSorted (a x : String) (l : List String) :
    a ∈ insertSorted x l ↔ a = x ∨ a ∈ l := by
  induction l with
  | nil => simp [insertSorted]
  | cons y rest ih =>
    by_cases h : strLe x y = true
    · simp [insertSorted, h]
    · simp only [insertSorted, if_neg h, List.mem_cons, ih]
      tauto

lemma mem_sortStrings (a : String) (l : List String) :
    a ∈ sortStrings l ↔ a ∈ l := by
  induction l with
  | nil => simp [sortStrings]
  | cons x rest ih => simp [sortStrings, mem_insertSorted, ih]

lemma nodup_insertSorted (x : String) (l : List String)
    (hx : x ∉ l) (hl : l.Nodup) : (insertSorted x l).Nodup := by
  induction l with
  | nil => simp [insertSorted]
  | cons y rest ih =>
    rcases List.nodup_cons.1 hl with ⟨hy, hrest⟩
    by_cases h : strLe x y = true
    · have he : insertSorted x (y :: rest) = x :: y :: rest := by
        simp [insertSorted, h]
      rw [he]
      exact List.nodup_cons.2 ⟨hx, hl⟩
    · simp only [insertSorted, if_neg h]
      refine List.nodup_cons.2 ⟨?_, ?_⟩
      · rw [mem_insertSorted]
        rintro (rfl | hmem)
        · exact hx (List.mem_cons_self _ _)
        · exact hy hmem
      · exact ih (fun hm => hx (List.mem_cons_of_mem _ hm)) hrest

lemma nodup_sortStrings (l : List String) (hl : l.Nodup) :
    (sortStrings l).Nodup := by
  induction l with
  | nil => simp [sortStrings]
  | cons x rest ih =>
    rcases List.nodup_cons.1 hl with ⟨hx, hrest⟩
    exact nodup_insertSorted x (sortStrings rest)
      (fun hm => hx ((mem_sortStrings x rest).1 hm)) (ih hrest)

/-- `symbolsEqual(a, b)` (lines 350-357): equal lengths and every element
of `b` contained in `Set(a)`. -/
def symbolsEqual (a b : List String) : Bool :=
  decide (a.length = b.length) && b.all (fun s => decide (s ∈ a))

/-- `cleanupWindows(validSymbols)` (lines 340-348): for every key of the
`windows` map that is not in the keep set, delete it from both `windows`
and `lastBroadcastAt`. (A `lastBroadcastAt` key with no window entry is
not touched, exactly as in the loop over `windows.keys()`.) -/
def cleanupWindows (vol : VolumeState) (validSymbols : List String) : VolumeState :=
  { windows := vol.windows.filter (fun p => decide (p.1 ∈ validSymbols))
  , lastBroadcastAt := vol.lastBroadcastAt.filter
      (fun p => decide (p.1 ∈ validSymbols)
        || decide (p.1 ∉ vol.windows.map Prod.fst)) }

/-- The reconciliation-relevant state of one worker: the active symbol
set plus the per-symbol aggregation/cooldown maps. -/
structure ReconcilerState where
  trackedSymbols : List String
  vol : VolumeState
deriving Repr, DecidableEq

/-- The success path of `refreshSymbols()` (lines 359-379) applied to a
fetched symbol list: no-op under an explicit override; otherwise dedup
and sort the fetched list, compare with the active set via
`symbolsEqual`, and on a difference replace the active set, purge state
for dropped symbols, and signal `reconnect(true)`. Returns the new state
and whether a reconnect was signalled. -/
def refreshSymbols (explicitSymbols : Bool) (st : ReconcilerState)
    (fetched : List String) : ReconcilerState × Bool :=
  if explicitSymbols then (st, false)
  else
    let unique := sortStrings fetched.dedup
    if symbolsEqual unique st.trackedSymbols then (st, false)
    else ({ trackedSymbols := unique, vol := cleanupWindows st.vol unique }, true)

/-- Lookup through a filter whose predicate depends only on the key. -/
lemma mapGet_filter_key {α : Type} (q : String → Bool) (m : List (String × α))
    (k : String) :
    mapGet k (m.filter (fun p => q p.1)) = if q k then mapGet k m else none := by
  induction m with
  | nil => simp [mapGet]
  | cons p rest ih =>
    obtain ⟨pk, pv⟩ := p
    by_cases hq : q pk = true
    · by_cases hk : pk = k
      · subst hk
        simp [List.filter_cons, hq, mapGet, ih]
      · simp [List.filter_cons, hq, mapGet, hk, ih]
    · by_cases hk : pk = k
      · subst hk
        simp only [List.filter_cons, hq]
        simp only [Bool.false_eq_true, if_false, ih]
        have : q pk = false := by simpa using hq
        simp [this]
      · simp [List.filter_cons, hq, mapGet, hk, ih]

lemma mapGet_eq_none_iff {α : Type} (m : List (String × α)) (k : String) :
    mapGet k m = none ↔ k ∉ m.map Prod.fst := by
  induction m with
  | nil => simp [mapGet]
  | cons p rest ih =>
    obtain ⟨pk, pv⟩ := p
    by_cases hk : pk = k
    · subst hk
      simp [mapGet]
    · have hne : ¬ (k = pk) := fun e => hk (Eq.symm e)
      simp only [mapGet, if_neg hk, List.map_cons, List.mem_cons, ih]
      tauto

lemma mem_of_mapGet_eq_some {α : Type} (m : List (String × α)) (k : String)
    (v : α) (h : mapGet k m = some v) : (k, v) ∈ m := by
  induction m with
  | nil => simp [mapGet] at h
  | cons p rest ih =>
    obtain ⟨pk, pv⟩ := p
    by_cases hk : pk = k
    · subst hk
      have hv : some pv = some v := by simpa [mapGet] using h
      injection hv with hv
      subst hv
      exact List.mem_cons_self _ _
    · simp only [mapGet, if_neg hk] at h
      exact List.mem_cons_of_mem _ (ih h)

lemma symbolsEqual_eq_true_iff (a b : List String) :
    symbolsEqual a b = true ↔ a.length = b.length ∧ ∀ s ∈ b, s ∈ a := by
  simp [symbolsEqual, List.all_eq_true]

/-- When the first list has no duplicates, a positive `symbolsEqual`
verdict really is unordered set equality. -/
lemma set_eq_of_symbolsEqual (a b : List String) (ha : a.Nodup) (hb : b.Nodup)
    (h : symbolsEqual a b = true) : ∀ s, s ∈ a ↔ s ∈ b := by
  rcases (symbolsEqual_eq_true_iff a b).1 h with ⟨hlen, hsub⟩
  have hsubF : b.toFinset ⊆ a.toFinset := fun s hs =>
    List.mem_toFinset.2 (hsub s (List.mem_toFinset.1 hs))
  have hcard : a.toFinset.card ≤ b.toFinset.card := by
    rw [List.toFinset_card_of_nodup ha, List.toFinset_card_of_nodup hb]
    omega
  have hFeq := Finset.eq_of_subset_of_card_le hsubF hcard
  intro s
  constructor
  · intro hs
    have hsF : s ∈ b.toFinset := by rw [hFeq]; exact List.mem_toFinset.2 hs
    exact List.mem_toFinset.1 hsF
  · intro hs
    exact hsub s hs

/-- Claim C5: when reconciliation fetches a symbol set that differs from
the active set as an unordered set, the active set is replaced by the
fetched set (and a resubscribe is signalled); the aggregation window and
cooldown entry of every symbol no longer in the set are deleted; the
window and cooldown state of every fetched symbol are unchanged; and a
newly added symbol has no window until its first event, whose `getWindow`
starts from an empty window with sum 0. The hypotheses restate the
reachable-state facts that the active set is duplicate-free and that
every cooldown entry has a window entry. -/
theorem C5_symbol_reconciliation (st : ReconcilerState) (fetched : List String)
    (W : Int) (htracked : st.trackedSymbols.Nodup)
    (hkeys : ∀ p ∈ st.vol.lastBroadcastAt, mapGet p.1 st.vol.windows ≠ none)
    (hdiff : ¬ ((∀ s ∈ fetched, s ∈ st.trackedSymbols) ∧
        (∀ s ∈ st.trackedSymbols, s ∈ fetched))) :
    (refreshSymbols false st fetched).2 = true ∧
    (∀ s, s ∈ (refreshSymbols false st fetched).1.trackedSymbols ↔ s ∈ fetched) ∧
    (∀ s, s ∉ fetched →
      mapGet s (refreshSymbols false st fetched).1.vol.windows = none ∧
      mapGet s (refreshSymbols false st fetched).1.vol.lastBroadcastAt = none) ∧
    (∀ s, s ∈ fetched →
      mapGet s (refreshSymbols false st fetched).1.vol.windows
        = mapGet s st.vol.windows ∧
      mapGet s (refreshSymbols false st fetched).1.vol.lastBroadcastAt
        = mapGet s st.vol.lastBroadcastAt) ∧
    (∀ s, s ∈ fetched → mapGet s st.vol.windows = none →
      mapGet s (refreshSymbols false st fetched).1.vol.windows = none ∧
      (getWindow (refreshSymbols false st fetched).1.vol s W).2.getSum = 0 ∧
      (getWindow (refreshSymbols false st fetched).1.vol s W).2.entries = []) := by
  set u := sortStrings fetched.dedup with hu
  have humem : ∀ s, s ∈ u ↔ s ∈ fetched := fun s => by
    rw [hu, mem_sortStrings, List.mem_dedup]
  have hunodup : u.Nodup := nodup_sortStrings _ (List.nodup_dedup fetched)
  have hne : symbolsEqual u st.trackedSymbols = false := by
    cases h : symbolsEqual u st.trackedSymbols
    · rfl
    · exfalso
      have hseteq := set_eq_of_symbolsEqual u st.trackedSymbols hunodup htracked h
      exact hdiff ⟨fun s hs => (hseteq s).1 ((humem s).2 hs),
        fun s hs => (humem s).1 ((hseteq s).2 hs)⟩
  have hres : refreshSymbols false st fetched
      = ({ trackedSymbols := u, vol := cleanupWindows st.vol u }, true) := by
    simp [refreshSymbols, ← hu, hne]
  rw [hres]
  have hwinGet : ∀ s, mapGet s (cleanupWindows st.vol u).windows
      = if decide (s ∈ u) then mapGet s st.vol.windows else none := fun s =>
    mapGet_filter_key (fun k => decide (k ∈ u)) st.vol.windows s
  have hlbGet : ∀ s, mapGet s (cleanupWindows st.vol u).lastBroadcastAt
      = if decide (s ∈ u) || decide (s ∉ st.vol.windows.map Prod.fst)
        then mapGet s st.vol.lastBroadcastAt else none := fun s =>
    mapGet_filter_key
      (fun k => decide (k ∈ u) || decide (k ∉ st.vol.windows.map Prod.fst))
      st.vol.lastBroadcastAt s
  refine ⟨rfl, fun s => humem s, ?_, ?_, ?_⟩
  · intro s hs
    have hsu : decide (s ∈ u) = false :=
      decide_eq_false (fun hmem => hs ((humem s).1 hmem))
    constructor
    · rw [hwinGet s, hsu]
      simp
    · by_cases hk : s ∈ st.vol.windows.map Prod.fst
      · have hks : decide (s ∉ st.vol.windows.map Prod.fst) = false := by
          simp [hk]
        rw [hlbGet s, hsu, hks]
        simp
      · have hwnone : mapGet s st.vol.windows = none :=
          (mapGet_eq_none_iff _ _).2 hk
        have hlb : mapGet s st.vol.lastBroadcastAt = none := by
          cases hlbv : mapGet s st.vol.lastBroadcastAt with
          | none => rfl
          | some v =>
            exact absurd hwnone
              (hkeys (s, v) (mem_of_mapGet_eq_some _ _ _ hlbv))
        rw [hlbGet s, hlb]
        simp
  · intro s hs
    have hsu : decide (s ∈ u) = true := decide_eq_true ((humem s).2 hs)
    constructor
    · rw [hwinGet s, hsu]
      simp
    · rw [hlbGet s, hsu]
      simp
  · intro s hs hwnone
    have hsu : decide (s ∈ u) = true := decide_eq_true ((humem s).2 hs)
    have hnone : mapGet s (cleanupWindows st.vol u).windows = none := by
      rw [hwinGet s, hsu, hwnone]
      simp
    refine ⟨hnone, ?_, ?_⟩
    · show (getWindow (cleanupWindows st.vol u) s W).2.getSum = 0
      simp only [getWindow, hnone]
      rfl
    · show (getWindow (cleanupWindows st.vol u) s W).2.entries = []
      simp only [getWindow, hnone]
      rfl

/-- Concrete reconciler state for the C5 witness: active `{a,b,c}`, each
with a window and a cooldown record. -/
def c5State : ReconcilerState :=
  { trackedSymbols := ["a", "b", "c"]
  , vol :=
    { windows :=
        [("a", createRollingWindow 10), ("b", createRollingWindow 10),
          ("c", createRollingWindow 10)]
    , lastBroadcastAt := [("a", 5), ("b", 6), ("c", 7)] } }

/-- Witness for C5 at the spec's own example: active `{a,b,c}`, fetched
`{b,c,d}`. -/
theorem C5_symbol_reconciliation_witness :
    (refreshSymbols false c5State ["b", "c", "d"]).2 = true ∧
    (∀ s, s ∈ (refreshSymbols false c5State ["b", "c", "d"]).1.trackedSymbols
      ↔ s ∈ ["b", "c", "d"]) ∧
    (∀ s, s ∉ ["b", "c", "d"] →
      mapGet s (refreshSymbols false c5State ["b", "c", "d"]).1.vol.windows = none ∧
      mapGet s (refreshSymbols false c5State ["b", "c", "d"]).1.vol.lastBroadcastAt
        = none) ∧
    (∀ s, s ∈ ["b", "c", "d"] →
      mapGet s (refreshSymbols false c5State ["b", "c", "d"]).1.vol.windows
        = mapGet s c5State.vol.windows ∧
      mapGet s (refreshSymbols false c5State ["b", "c", "d"]).1.vol.lastBroadcastAt
        = mapGet s c5State.vol.lastBroadcastAt) ∧
    (∀ s, s ∈ ["b", "c", "d"] → mapGet s c5State.vol.windows = none →
      mapGet s (refreshSymbols false c5State ["b", "c", "d"]).1.vol.windows = none ∧
      (getWindow (refreshSymbols false c5State ["b", "c", "d"]).1.vol s 10).2.getSum
        = 0 ∧
      (getWindow (refreshSymbols false c5State ["b", "c", "d"]).1.vol s 10).2.entries
        = []) :=
  C5_symbol_reconciliation c5State ["b", "c", "d"] 10 (by decide) (by decide)
    (by decide)

/-- `DEFAULT_WS_RETRY_MS`. -/
def DEFAULT_WS_RETRY_MS : Nat := 5000

/-- `MAX_WS_RETRY_MS`. -/
def MAX_WS_RETRY_MS : Nat := 60000

/-- `scheduleReconnect()` (lines 536-544): increment the attempt counter
and schedule `connect` after
`min(DEFAULT_WS_RETRY_MS * 2^(attempts-1), MAX_WS_RETRY_MS)` ms. Returns
the new counter and the scheduled delay. -/
def scheduleReconnect (reconnectAttempts : Nat) : Nat × Nat :=
  let a := reconnectAttempts + 1
  (a, min (DEFAULT_WS_RETRY_MS * 2 ^ (a - 1)) MAX_WS_RETRY_MS)

/-- The `open` handler (line 516): `reconnectAttempts = 0` on a
successful connection. -/
def resetAttemptsOnOpen (_reconnectAttempts : Nat) : Nat := 0

/-- The attempt counter after `n` consecutive failure-triggered
`scheduleReconnect` calls starting from counter `a`. -/
def attemptsAfter (a : Nat) : Nat → Nat
  | 0 => a
  | n + 1 => (scheduleReconnect (attemptsAfter a n)).1

lemma attemptsAfter_zero_start (n : Nat) : attemptsAfter 0 n = n := by
  induction n with
  | zero => rfl
  | succ n ih => simp [attemptsAfter, scheduleReconnect, ih]

/-- Claim C6: for every `n ≥ 1`, the delay scheduled before the n-th
consecutive failure-triggered reconnect attempt (counting from a counter
reset by a successful connection) equals `min(5000 * 2^(n-1), 60000)` ms
— 5000, 10000, 20000, 40000, 60000 and 60000 thereafter — and a success
resets the counter to zero, so the next failure is delayed 5000 ms
again. -/
theorem C6_reconnect_backoff (n a : Nat) (hn : 1 ≤ n) :
    (scheduleReconnect (attemptsAfter (resetAttemptsOnOpen a) (n - 1))).2
      = min (5000 * 2 ^ (n - 1)) 60000 ∧
    (5 ≤ n →
      (scheduleReconnect (attemptsAfter (resetAttemptsOnOpen a) (n - 1))).2
        = 60000) ∧
    (scheduleReconnect (resetAttemptsOnOpen a)).2 = 5000 := by
  have hc : attemptsAfter (resetAttemptsOnOpen a) (n - 1) = n - 1 :=
    attemptsAfter_zero_start (n - 1)
  have hform : (scheduleReconnect (attemptsAfter (resetAttemptsOnOpen a) (n - 1))).2
      = min (5000 * 2 ^ (n - 1)) 60000 := by
    rw [hc]
    rfl
  refine ⟨hform, ?_, rfl⟩
  intro h5
  rw [hform]
  have hpow : 2 ^ 4 ≤ 2 ^ (n - 1) :=
    Nat.pow_le_pow_right (by omega) (by omega)
  have : 60000 ≤ 5000 * 2 ^ (n - 1) := by
    calc 60000 ≤ 5000 * 2 ^ 4 := by norm_num
    _ ≤ 5000 * 2 ^ (n - 1) := Nat.mul_le_mul_left _ hpow
  omega

/-- Witness for C6 at `n = 6` (the first "stays capped" attempt). -/
theorem C6_reconnect_backoff_witness :
    (scheduleReconnect (attemptsAfter (resetAttemptsOnOpen 3) (6 - 1))).2
      = min (5000 * 2 ^ (6 - 1)) 60000 ∧
    (5 ≤ 6 →
      (scheduleReconnect (attemptsAfter (resetAttemptsOnOpen 3) (6 - 1))).2
        = 60000) ∧
    (scheduleReconnect (resetAttemptsOnOpen 3)).2 = 5000 :=
  C6_reconnect_backoff 6 3 (by decide)

/-- The WebSocket-lifecycle slice of one `startWorker` instance:
`closedByUser`, the `ws` variable (`none` = never assigned;
`some true` = live socket, `some false` = closed socket), whether a
`setTimeout(connect, delay)` is pending, the attempt counter, the active
symbol list, and a history count of `new WebSocket(url)` constructions. -/
structure StreamState where
  closedByUser : Bool
  wsOpen : Option Bool
  reconnectTimerPending : Bool
  reconnectAttempts : Nat
  trackedSymbols : List String
  connectionsOpened : Nat
deriving Repr, DecidableEq

/-- `connect()` (lines 489-534): no-op when the symbol set is empty;
otherwise builds the stream URL (always defined for a non-empty symbol
list) and constructs a new WebSocket. It never consults `closedByUser`. -/
def connect (s : StreamState) : StreamState :=
  if s.trackedSymbols.isEmpty then s
  else { s with wsOpen := some true, connectionsOpened := s.connectionsOpened + 1 }

/-- The `ws.on('close')` handler (lines 525-528): if not closed by the
owner, `scheduleReconnect()` — increment the counter and arm the
reconnect timer. -/
def onWsClose (s : StreamState) : StreamState :=
  if s.closedByUser then s
  else { s with reconnectTimerPending := true
              , reconnectAttempts := s.reconnectAttempts + 1 }

/-- A transport failure: a live socket closes and its close handler
runs. -/
def wsDrop (s : StreamState) : StreamState :=
  match s.wsOpen with
  | some true => onWsClose { s with wsOpen := some false }
  | _ => s

/-- `stop()` (lines 604-607): set `closedByUser` and `ws.close()` the
active handle; the close handler then observes the flag. Closing an
already-closed or never-assigned handle is a no-op. -/
def stop (s : StreamState) : StreamState :=
  let s' : StreamState := { s with closedByUser := true }
  match s'.wsOpen with
  | some true => onWsClose { s' with wsOpen := some false }
  | _ => s'

/-- A pending `setTimeout(connect, delay)` armed by `scheduleReconnect`
fires: it calls `connect()` unconditionally. -/
def reconnectTimerFires (s : StreamState) : StreamState :=
  if s.reconnectTimerPending then connect { s with reconnectTimerPending := false }
  else s

/-- A worker that connected once and whose socket then dropped, arming
the reconnect timer. -/
def c7Dropped : StreamState :=
  wsDrop
    { closedByUser := false, wsOpen := some true, reconnectTimerPending := false
    , reconnectAttempts := 0, trackedSymbols := ["xyzusdt"], connectionsOpened := 1 }

/-- Evidence against claim C7: after a failure arms the reconnect timer,
`stop()` sets the closed-by-owner flag without cancelling the timer, and
the timer's `connect()` call never checks the flag — a new WebSocket is
constructed (and left open) after owner-initiated shutdown. -/
theorem C7_pending_reconnect_revives_after_stop :
    (stop c7Dropped).closedByUser = true ∧
    (stop c7Dropped).connectionsOpened = 1 ∧
    (stop c7Dropped).reconnectTimerPending = true ∧
    (reconnectTimerFires (stop c7Dropped)).closedByUser = true ∧
    (reconnectTimerFires (stop c7Dropped)).connectionsOpened = 2 ∧
    (reconnectTimerFires (stop c7Dropped)).wsOpen = some true := by
  decide

/-- JavaScript truthiness of a string-or-null value: `null` and the
empty string are falsy. -/
def strTruthy : Option String → Bool
  | none => false
  | some s => decide (s ≠ "")

/-- The threshold/marker update at the heart of `refreshVolumeSettings`
(lines 405-428), as a function of the worker's current threshold and
last-applied marker and the fetched threshold and `updatedAt`:
`settingsChanged = !lastSettingsUpdatedAt || (settings.updatedAt &&
settings.updatedAt !== lastSettingsUpdatedAt)`; when it holds the fetched
threshold and marker are taken over (the threshold assignment is guarded
by an inequality test that does not change the resulting value),
otherwise both are left unchanged. `fetchVolumeSettings` normalizes a
falsy `payload.updatedAt` to `null` (`none`). -/
def refreshVolumeSettings (volumeThresholdUsd : Int)
    (lastSettingsUpdatedAt : Option String) (newThreshold : Int)
    (updatedAt : Option String) : Int × Option String :=
  let settingsChanged :=
    !(strTruthy lastSettingsUpdatedAt)
      || (strTruthy updatedAt && decide (updatedAt ≠ lastSettingsUpdatedAt))
  if settingsChanged then (newThreshold, updatedAt)
  else (volumeThresholdUsd, lastSettingsUpdatedAt)

/-- Counterexample to claim C8 as stated: on the very first refresh the
last-applied marker is `null` and, when the API supplies no `updatedAt`,
the fetched marker is also `null` — the two markers are equal, yet
`!lastSettingsUpdatedAt` makes `settingsChanged` true and the fetched
threshold is applied. -/
theorem C8_counterexample_null_markers :
    (refreshVolumeSettings 400000 none 500000 none).1 = 500000 ∧
      (500000 : Int) ≠ 400000 := by
  constructor
  · rfl
  · decide

/-- Claim C8 (amended): a fetched threshold is applied (the current
threshold changes) only when either no truthy marker has been applied
yet (`!lastSettingsUpdatedAt`) or the fetched `updatedAt` is truthy and
differs from the last-applied marker; whenever the fetched `updatedAt`
equals a truthy last-applied marker, the threshold and marker are left
unchanged. -/
theorem C8_threshold_applied_only_on_marker_change (cur : Int)
    (last : Option String) (newTh : Int) (upd : Option String) :
    ((refreshVolumeSettings cur last newTh upd).1 ≠ cur →
      strTruthy last = false ∨ (strTruthy upd = true ∧ upd ≠ last)) ∧
    (strTruthy last = true → upd = last →
      refreshVolumeSettings cur last newTh upd = (cur, last)) := by
  constructor
  · intro hchanged
    by_cases hl : strTruthy last = true
    · right
      by_cases hu : strTruthy upd = true
      · refine ⟨hu, ?_⟩
        intro heq
        apply hchanged
        simp [refreshVolumeSettings, hl, hu, heq]
      · exfalso
        apply hchanged
        have hu' : strTruthy upd = false := by
          cases h : strTruthy upd
          · rfl
          · exact absurd h hu
        simp [refreshVolumeSettings, hl, hu']
    · left
      cases h : strTruthy last
      · rfl
      · exact absurd h hl
  · intro hl heq
    simp [refreshVolumeSettings, hl, heq]

/-- A JavaScript string as its list of code units. -/
abbrev JsStr := List Nat

/-- The code units of an ASCII Lean string literal. -/
def codes (s : String) : JsStr := s.data.map Char.toNat

/-- The code units stripped by JavaScript's `String.prototype.trim`
(whitespace and line terminators). -/
def isJsWhitespace (c : Nat) : Bool :=
  c == 9 || c == 10 || c == 11 || c == 12 || c == 13 || c == 32
    || c == 160 || c == 8232 || c == 8233 || c == 65279

/-- Strip trailing whitespace. -/
def trimEnd (s : JsStr) : JsStr := (s.reverse.dropWhile isJsWhitespace).reverse

/-- `trim()`: strip leading, then trailing, whitespace. -/
def trimJs (s : JsStr) : JsStr := trimEnd (s.dropWhile isJsWhitespace)

/-- `toLowerCase()` on one code unit (the ASCII range relevant to symbol
strings; other units are left unchanged). -/
def lowerCode (c : Nat) : Nat := if 65 ≤ c ∧ c ≤ 90 then c + 32 else c

/-- `toLowerCase()`. -/
def toLowerJs (s : JsStr) : JsStr := s.map lowerCode

/-- `split(',')`. -/
def splitCommas : JsStr → List JsStr
  | [] => [[]]
  | c :: rest =>
    match splitCommas rest with
    | [] => [[c]]
    | h :: t => if c == 44 then [] :: h :: t else (c :: h) :: t

/-- `EXCLUDED_SYMBOLS` (lines 16-30). -/
def excludedSymbols : List JsStr :=
  [codes "btcusdt", codes "ethusdt", codes "solusdt", codes "bnbusdt",
   codes "bchusdt", codes "xrpusdt", codes "linkusdt", codes "dogeusdt",
   codes "usdcusdt", codes "usdtusdt", codes "wbtcusdt", codes "usd1usdt",
   codes "fdusdusdt"]

/-- `parseSymbols(raw)` (lines 63-71): empty for a falsy argument;
otherwise split on commas, trim each item, drop falsy (empty) items,
lower-case, and drop the excluded symbols. -/
def parseSymbols (raw : JsStr) : List JsStr :=
  if raw.isEmpty then []
  else
    ((((splitCommas raw).map trimJs).filter (fun s => !s.isEmpty)).map
        toLowerJs).filter (fun s => decide (s ∉ excludedSymbols))

/-- The post-processing `fetchTrackedSymbols` applies to the
backend-supplied symbol list (lines 137-141): lower-case, drop falsy
entries, keep only symbols ending in `usdt`, drop the excluded
symbols. -/
def filterTrackedSymbols (symbols : List JsStr) : List JsStr :=
  (((symbols.map toLowerJs).filter (fun s => !s.isEmpty)).filter
      (fun s => (codes "usdt").isSuffixOf s)).filter
    (fun s => decide (s ∉ excludedSymbols))

lemma lowerCode_idem (c : Nat) : lowerCode (lowerCode c) = lowerCode c := by
  unfold lowerCode
  by_cases h : 65 ≤ c ∧ c ≤ 90
  · simp only [if_pos h]
    have hr : ¬ (65 ≤ c + 32 ∧ c + 32 ≤ 90) := by omega
    rw [if_neg hr]
  · simp [h]

lemma isJsWhitespace_lowerCode (c : Nat) :
    isJsWhitespace (lowerCode c) = isJsWhitespace c := by
  unfold lowerCode
  by_cases h : 65 ≤ c ∧ c ≤ 90
  · simp only [if_pos h]
    have h1 : isJsWhitespace (c + 32) = false := by
      simp only [isJsWhitespace]
      simp only [Bool.or_eq_false_iff, beq_eq_false_iff_ne]
      omega
    have h2 : isJsWhitespace c = false := by
      simp only [isJsWhitespace]
      simp only [Bool.or_eq_false_iff, beq_eq_false_iff_ne]
      omega
    rw [h1, h2]
  · simp [h]

lemma dropWhile_idem {α : Type} (p : α → Bool) (l : List α) :
    (l.dropWhile p).dropWhile p = l.dropWhile p := by
  induction l with
  | nil => rfl
  | cons c t ih =>
    by_cases h : p c = true
    · simp [List.dropWhile_cons, h, ih]
    · simp [List.dropWhile_cons, h]

lemma trimEnd_idem (l : JsStr) : trimEnd (trimEnd l) = trimEnd l := by
  unfold trimEnd
  rw [List.reverse_reverse, dropWhile_idem]

lemma dropWhile_trimEnd_comm (l : JsStr) :
    (trimEnd l).dropWhile isJsWhitespace = trimEnd (l.dropWhile isJsWhitespace) := by
  induction l with
  | nil => rfl
  | cons c t ih =>
    have hsplit : (c :: t).reverse.dropWhile isJsWhitespace
        = if ((t.reverse.dropWhile isJsWhitespace).isEmpty) = true
          then List.dropWhile isJsWhitespace [c]
          else t.reverse.dropWhile isJsWhitespace ++ [c] := by
      rw [List.reverse_cons, List.dropWhile_append]
    by_cases hc : isJsWhitespace c = true
    · have hrhs : (c :: t).dropWhile isJsWhitespace = t.dropWhile isJsWhitespace := by
        simp [List.dropWhile_cons, hc]
      rw [hrhs, ← ih]
      by_cases hemp : t.reverse.dropWhile isJsWhitespace = []
      · have : trimEnd (c :: t) = [] := by
          unfold trimEnd
          rw [hsplit]
          simp [hemp, List.dropWhile_cons, hc]
        rw [this]
        have ht : trimEnd t = [] := by
          unfold trimEnd
          rw [hemp]
          rfl
        rw [ht]
      · have : trimEnd (c :: t) = c :: trimEnd t := by
          unfold trimEnd
          rw [hsplit]
          have : (t.reverse.dropWhile isJsWhitespace).isEmpty = false := by
            simp [List.isEmpty_iff, hemp]
          rw [this]
          simp
        rw [this]
        simp [List.dropWhile_cons, hc]
    · have hrhs : (c :: t).dropWhile isJsWhitespace = c :: t := by
        simp [List.dropWhile_cons, hc]
      rw [hrhs]
      by_cases hemp : t.reverse.dropWhile isJsWhitespace = []
      · have h1 : trimEnd (c :: t) = [c] := by
          unfold trimEnd
          rw [hsplit]
          simp [hemp, List.dropWhile_cons, hc]
        rw [h1]
        simp [List.dropWhile_cons, hc]
      · have h1 : trimEnd (c :: t) = c :: trimEnd t := by
          unfold trimEnd
          rw [hsplit]
          have : (t.reverse.dropWhile isJsWhitespace).isEmpty = false := by
            simp [List.isEmpty_iff, hemp]
          rw [this]
          simp
        rw [h1]
        simp [List.dropWhile_cons, hc]

lemma trimJs_idem (l : JsStr) : trimJs (trimJs l) = trimJs l := by
  unfold trimJs
  rw [dropWhile_trimEnd_comm, dropWhile_idem, trimEnd_idem]

lemma dropWhile_toLowerJs (l : JsStr) :
    (toLowerJs l).dropWhile isJsWhitespace
      = toLowerJs (l.dropWhile isJsWhitespace) := by
  unfold toLowerJs
  have hfun : (isJsWhitespace ∘ lowerCode) = isJsWhitespace :=
    funext isJsWhitespace_lowerCode
  rw [List.dropWhile_map, hfun]

lemma trimEnd_toLowerJs (l : JsStr) :
    trimEnd (toLowerJs l) = toLowerJs (trimEnd l) := by
  unfold trimEnd
  have h1 : (toLowerJs l).reverse = toLowerJs l.reverse := by
    unfold toLowerJs
    rw [List.map_reverse]
  rw [h1, dropWhile_toLowerJs]
  unfold toLowerJs
  rw [List.map_reverse]

lemma trimJs_toLowerJs (l : JsStr) :
    trimJs (toLowerJs l) = toLowerJs (trimJs l) := by
  unfold trimJs
  rw [dropWhile_toLowerJs, trimEnd_toLowerJs]

lemma toLowerJs_idem (l : JsStr) : toLowerJs (toLowerJs l) = toLowerJs l := by
  unfold toLowerJs
  rw [List.map_map]
  exact List.map_congr_left (fun c _ => lowerCode_idem c)

/-- Claim C10: `parseSymbols` returns only lower-cased, trimmed,
non-empty entries with the fixed denylist excluded, but applies no
`usdt`-suffix filter, whereas every symbol surviving
`fetchTrackedSymbols`' post-processing ends in `usdt`; consequently the
override input `btceur` yields a tracked symbol that does not end in
`usdt`. -/
theorem C10_override_skips_usdt_filter (raw : JsStr) (payload : List JsStr) :
    (∀ s ∈ parseSymbols raw,
      toLowerJs s = s ∧ trimJs s = s ∧ s ≠ [] ∧ s ∉ excludedSymbols) ∧
    (∀ s ∈ filterTrackedSymbols payload, (codes "usdt").isSuffixOf s = true) ∧
    parseSymbols (codes "btceur") = [codes "btceur"] ∧
    (codes "usdt").isSuffixOf (codes "btceur") = false := by
  refine ⟨?_, ?_, by decide, by decide⟩
  · intro s hs
    unfold parseSymbols at hs
    by_cases hraw : raw.isEmpty = true
    · rw [if_pos hraw] at hs
      exact absurd hs (List.not_mem_nil s)
    · rw [if_neg hraw] at hs
      have hs1 := List.mem_filter.1 hs
      have hexc : s ∉ excludedSymbols := by
        have := hs1.2
        simpa using this
      rcases List.mem_map.1 hs1.1 with ⟨y, hy, rfl⟩
      have hy1 := List.mem_filter.1 hy
      have hyne : y ≠ [] := by
        have := hy1.2
        simpa [List.isEmpty_iff] using this
      rcases List.mem_map.1 hy1.1 with ⟨x, _, rfl⟩
      refine ⟨toLowerJs_idem _, ?_, ?_, hexc⟩
      · rw [trimJs_toLowerJs, trimJs_idem]
      · intro hnil
        apply hyne
        unfold toLowerJs at hnil
        exact List.map_eq_nil_iff.1 hnil
  · intro s hs
    have hs1 := List.mem_filter.1 hs
    have hs2 := List.mem_filter.1 hs1.1
    exact hs2.2

end Oruba
